import Mathlib

/-!
# Verification of the lettuce chunked-I/O client

Shallow embedding of the chunk model, chunk set, chunk writer/reader state
machines, filer entry and metadata event pipeline of the `lettuce` Go
client, together with proofs settling the specification claims.

Machine integers (`int64`, `uint64`) are modelled as `Int`/`Nat`; the
source guarantees `offset + size` never overflows, and no claim concerns
overflow behaviour.  Go maps keyed by `Offset` are modelled as association
lists in insertion order (one admissible iteration order of a Go map).
Fallible operations return `Except String`.
-/

namespace Lettuce

/-- `chunk.Offset`: a closed interval of byte positions (`Start`, `End`
fields of the Go struct, `int64`). -/
structure Offset where
  Start : Int
  End : Int
deriving DecidableEq, Repr

/-- `Offset.Contains`: `o.Start <= off && off <= o.End` (both ends
inclusive, as in the source). -/
def Offset.Contains (o : Offset) (off : Int) : Bool :=
  decide (o.Start ≤ off) && decide (off ≤ o.End)

/-- `Offset.Before`: `o.End <= other.Start`. -/
def Offset.Before (o other : Offset) : Bool :=
  decide (o.End ≤ other.Start)

/-- `Offset.After`: `o.Start >= other.End`. -/
def Offset.After (o other : Offset) : Bool :=
  decide (o.Start ≥ other.End)

/-- `Offset.Length`: `o.End - o.Start`. -/
def Offset.Length (o : Offset) : Int :=
  o.End - o.Start

/-- The fields of the protobuf `filer_pb.FileChunk` that the chunk layer
reads: `Offset` (`int64`), `Size` (`uint64`, hence `Nat`), `FileId` and
`ModifiedTsNs`. -/
structure FileChunk where
  fileId : String
  offset : Int
  size : Nat
  modifiedTsNs : Int := 0
deriving DecidableEq, Repr

/-- `chunk.Chunk`: wraps a `FileChunk` with its derived `Offset` interval
and the `position` index assigned at insertion time. -/
structure Chunk where
  fc : FileChunk
  offset : Offset
  position : Nat
deriving DecidableEq, Repr

/-- `chunk.NewChunk` with `WithPosition p`: the interval is
`{Start: fc.Offset, End: fc.Offset + fc.Size}`. -/
def NewChunk (fc : FileChunk) (p : Nat) : Chunk :=
  { fc := fc
    offset := { Start := fc.offset, End := fc.offset + (fc.size : Int) }
    position := p }

/-- `Chunk.Size()`: length of the chunk's interval. -/
def Chunk.Size (c : Chunk) : Int :=
  c.offset.Length

/-- The key computed by `Chunks.Add` for a protobuf chunk:
`Offset{Start: fc.GetOffset(), End: fc.GetOffset() + int64(fc.GetSize())}`. -/
def offsetKey (fc : FileChunk) : Offset :=
  { Start := fc.offset, End := fc.offset + (fc.size : Int) }

/-- `chunk.Chunks`: the chunk-set state.  The Go `map[Offset]Chunk` is an
association list in insertion order; `size`, `chunkSizeMin` and
`chunkSizeMax` mirror the `int64` scalars. -/
structure ChunksState where
  chunks : List (Offset × Chunk)
  chunkSizeMax : Int
  chunkSizeMin : Int
  path : String
  size : Int
deriving DecidableEq, Repr

/-- `chunk.NewChunks path` (without options): the empty chunk set. -/
def NewChunks (path : String) : ChunksState :=
  { chunks := [], chunkSizeMax := 0, chunkSizeMin := 0, path := path, size := 0 }

/-- The chunk values of the set, in map-insertion order. -/
def vals (s : ChunksState) : List Chunk :=
  s.chunks.map Prod.snd

/-- Insertion step of the sort used by `Chunks.List`. -/
def insertChunk (c : Chunk) : List Chunk → List Chunk
  | [] => [c]
  | d :: ds => if c.offset.Before d.offset then c :: d :: ds else d :: insertChunk c ds

/-- `sort.Slice(cks, less = Offset.Before)` inside `Chunks.List`, modelled
as an insertion sort by the same comparator (Go's sort order is
unspecified on ties; this fixes one admissible order). -/
def sortChunks : List Chunk → List Chunk
  | [] => []
  | c :: cs => insertChunk c (sortChunks cs)

/-- `Chunks.List()`: the chunk values sorted by `Offset.Before` (named `chunkList` here since `ChunksState.List` would clash with `List`). -/
def chunkList (s : ChunksState) : List Chunk :=
  sortChunks (vals s)

/-- Membership test of `c.chunks[off]` used by `Chunks.Add` for duplicate
detection. -/
def containsKey (l : List (Offset × Chunk)) (o : Offset) : Bool :=
  l.any (fun kv => decide (kv.1 = o))

/-- `Chunks.setChunkMinMax`, translated statement by statement (note the
fourth guard compares the incoming size against `chunkSizeMax`, not
against `chunkSizeMin`, exactly as the source does). -/
def setChunkMinMax (s : ChunksState) (size : Int) : ChunksState :=
  let s := if s.chunkSizeMin = 0 then { s with chunkSizeMin := size } else s
  let s := if s.chunkSizeMax = 0 then { s with chunkSizeMax := size } else s
  let s := if size > s.chunkSizeMax then { s with chunkSizeMax := size } else s
  let s := if size < s.chunkSizeMax then { s with chunkSizeMin := size } else s
  s

/-- The initial position counter of `Chunks.Add`: `0` for an empty set,
otherwise the position of the last element of the sorted `List()` plus
one. -/
def addP (s : ChunksState) : Nat :=
  if s.chunks.length > 0 then
    match (chunkList s).getLast? with
    | some c => c.position + 1
    | none => 0
  else 0

/-- One iteration of the loop body of `Chunks.Add`: skip when the offset
key is already present, otherwise insert the new chunk and update the
scalars.  Returns whether an insertion happened. -/
def addOne (s : ChunksState) (p : Nat) (fc : FileChunk) : Bool × ChunksState :=
  let off := offsetKey fc
  if containsKey s.chunks off then (false, s)
  else
    let ck := NewChunk fc p
    let s := { s with chunks := s.chunks ++ [(off, ck)] }
    let s := setChunkMinMax s ck.Size
    (true, { s with size := s.size + ck.Size })

/-- The loop of `Chunks.Add` over the variadic chunk arguments. -/
def addLoop (s : ChunksState) (p n : Nat) : List FileChunk → Nat × ChunksState
  | [] => (n, s)
  | fc :: rest =>
    let r := addOne s p fc
    if r.1 then addLoop r.2 (p + 1) (n + 1) rest
    else addLoop r.2 p n rest

/-- `Chunks.Add`: returns the number of chunks inserted and the mutated
set.  (The `onAdd` hook is modelled separately as `Entry.update`; its
result does not roll back the mutation.) -/
def ChunksState.Add (s : ChunksState) (fcs : List FileChunk) : Nat × ChunksState :=
  addLoop s (addP s) 0 fcs

/-- `Chunks.Clear()`: drops all chunks and zeroes the scalars. -/
def ChunksState.Clear (s : ChunksState) : ChunksState :=
  { s with chunks := [], chunkSizeMin := 0, chunkSizeMax := 0, size := 0 }

/-- The `find` helper of `Chunks.AtOffset`: the first entry (in map
iteration order) whose key interval `Contains` the offset, together with
the value `c.chunks[off]` the caller then reads. -/
def findChunk (offset : Int) : List (Offset × Chunk) → Except String (Offset × Chunk)
  | [] => .error "chunk not found"
  | kv :: rest =>
    if kv.1.Contains offset then .ok kv else findChunk offset rest

/-- `Chunks.AtOffset`: rejects `offset < 0` and `offset > size`, then
looks up the covering chunk via `find`. -/
def ChunksState.AtOffset (s : ChunksState) (offset : Int) : Except String Chunk :=
  if offset < 0 ∨ offset > s.size then .error "chunks: invalid offset"
  else
    match findChunk offset s.chunks with
    | .error e => .error e
    | .ok oc => .ok oc.2

/-! ## Chunk Writer (`chunk.Writer`)

Only the state observable through the public methods is modelled: whether
the internal queue channel is still open (`close(w.queue)` on a closed
channel is a Go runtime panic), the `closed` flag, the stored first error,
the residual buffer length and the logical offset.  The network upload of
the tail flush is modelled as succeeding (upload failures are outside the
claims about `Close` idempotence). -/

structure WriterState where
  queueOpen : Bool
  closed : Bool
  err : Option String
  bufLen : Nat
  offset : Int
deriving DecidableEq, Repr

/-- The state of a freshly constructed `chunk.NewWriter`. -/
def newWriterState : WriterState :=
  { queueOpen := true, closed := false, err := none, bufLen := 0, offset := 0 }

/-- Result of `Writer.Close`: a returned error value, or a Go runtime
panic. -/
inductive WCloseResult where
  | ok : Option String → WriterState → WCloseResult
  | panicked : String → WCloseResult
deriving DecidableEq, Repr

/-- `Writer.Close`, translated statement by statement: it unconditionally
executes `close(w.queue)` (a panic when the queue channel was already
closed by a previous call), then returns any stored error, and otherwise
marks the writer closed, stores the "already closed" error for later
calls, and flushes any residual buffered bytes as a final chunk. -/
def WriterState.Close (w : WriterState) : WCloseResult :=
  if !w.queueOpen then .panicked "close of closed channel"
  else
    let w := { w with queueOpen := false }
    match w.err with
    | some e => .ok (some e) w
    | none =>
      if !w.closed then
        let w := { w with closed := true, err := some "chunk_writer: already closed" }
        .ok none { w with offset := w.offset + (w.bufLen : Int), bufLen := 0 }
      else .ok w.err w

/-! ## Chunk Reader (`chunk.Reader`)

The prefetch pipeline (`queue <-chan chan *rc`) is modelled as the list of
chunk-read results it will deliver, in order: `.ok bytes` for a fetched
chunk body, `.error e` for a failed fetch.  Bytes are `Nat`s. -/

structure ReaderState where
  err : Option String
  offset : Int
  size : Int
  buf : List Nat
  queue : List (Except String (List Nat))
  closed : Bool
  cancelled : Bool
deriving Repr

/-- `Reader.Close`: returns any stored read error first; otherwise the
first call cancels the context and marks the reader closed, and any later
call reports "already closed". -/
def ReaderState.Close (r : ReaderState) : Option String × ReaderState :=
  match r.err with
  | some e => (some e, r)
  | none =>
    if !r.closed then (none, { r with closed := true, cancelled := true })
    else (some "chunk_reader: already closed", r)

/-- The `for c := range r.queue` loop of `Reader.Read`: pull chunk-read
results until the destination (capacity `blen`, already holding `n`
bytes) is full or the queue is exhausted.  Returns the bytes copied, an
error if a chunk read failed, the leftover bytes written back to `r.buf`,
and the unconsumed remainder of the queue. -/
def readLoop (blen : Nat) :
    List (Except String (List Nat)) → Nat →
    Nat × Option String × List Nat × List (Except String (List Nat))
  | [], n => (n, none, [], [])
  | .error e :: rest, n => (n, some e, [], rest)
  | .ok content :: rest, n =>
    let w := min (blen - n) content.length
    let n' := n + w
    if n' = blen then (n', none, content.drop w, rest)
    else readLoop blen rest n'

/-- Result codes of `Reader.Read`. -/
inductive ReadErr where
  | eof
  | err : String → ReadErr
deriving DecidableEq, Repr

/-- `Reader.Read`, translated in order: the zero-length fast path, the
stored-error path, the end-of-file path (`r.offset >= r.size` returns
`(0, io.EOF)` before any buffer or queue access), then the buffered copy
and the prefetch-queue loop. -/
def ReaderState.Read (r : ReaderState) (blen : Nat) :
    (Nat × Option ReadErr) × ReaderState :=
  if blen = 0 then ((0, none), r)
  else
    match r.err with
    | some e => ((0, some (.err e)), r)
    | none =>
      if r.offset ≥ r.size then ((0, some .eof), r)
      else
        let n1 := min blen r.buf.length
        let buf1 := r.buf.drop n1
        if n1 < blen ∧ r.offset + (n1 : Int) < r.size then
          let res := readLoop blen r.queue n1
          match res.2.1 with
          | some e =>
            ((res.1, some (.err e)),
              { r with err := some e, buf := [], queue := res.2.2.2 })
          | none =>
            let off' := r.offset + (res.1 : Int)
            ((res.1, none),
              { r with buf := res.2.2.1, queue := res.2.2.2, offset := off',
                       cancelled := r.cancelled || decide (off' ≥ r.size) })
        else
          let off' := r.offset + (n1 : Int)
          ((n1, none),
            { r with buf := buf1, offset := off',
                     cancelled := r.cancelled || decide (off' ≥ r.size) })

/-- `Reader.Seek`.  The re-initialization of the prefetch pipeline
(`r.init(off)`, which cancels in-flight work, consults `AtOffset` and
refetches the owning chunk over the network) is abstracted as the
function argument `reinit`; the theorems quantify over it, so a statement
that holds for every `reinit` shows in particular that `init` was not
invoked on that path.  `whence` is the Go `int` (0 = Start, 1 = Current,
2 = End). -/
def ReaderState.Seek (reinit : Int → Except String ReaderState)
    (r : ReaderState) (off : Int) (whence : Int) :
    (Int × Option String) × ReaderState :=
  let offR : Except String Int :=
    if whence = 0 then .ok off
    else if whence = 1 then .ok (off + r.offset)
    else if whence = 2 then .ok (off + r.size)
    else .error "invalid whence"
  match offR with
  | .error e => ((0, some e), r)
  | .ok off =>
    if off < 0 then ((off, some "negative pos"), r)
    else
      if off ≠ r.offset ∧ off ≤ r.size then
        match reinit off with
        | .error e => ((0, some e), { r with cancelled := true, buf := [] })
        | .ok r' => ((off, none), r')
      else ((off, none), r)

/-! ## Filer Entry (`cluster/filer/entry.go`) -/

/-- The attribute fields of `filer_pb.FuseAttributes` read by the entry
layer: `FileSize` (`uint64`) and `Mtime`. -/
structure PBAttributes where
  fileSize : Nat
  mtime : Int := 0
deriving DecidableEq, Repr

/-- The fields of the protobuf `filer_pb.Entry` read by the entry layer. -/
structure PBEntry where
  name : String
  isDirectory : Bool
  attributes : Option PBAttributes
  chunks : List FileChunk
deriving DecidableEq, Repr

/-- `Chunks.PB()`: the protobuf chunks of the set in sorted (`List()`)
order. -/
def chunksPB (s : ChunksState) : List FileChunk :=
  (chunkList s).map Chunk.fc

/-- `Entry.Size()`: the attribute `FileSize` for a non-directory entry
with attributes, `0` otherwise. -/
def entrySize (pb : PBEntry) : Int :=
  if !pb.isDirectory then
    match pb.attributes with
    | some a => (a.fileSize : Int)
    | none => 0
  else 0

/-- `Entry.update`, the `onAdd` hook installed on the entry's chunk set:
errors when invoked with a nil chunk set; otherwise, only when the raw
protobuf entry is a file, has non-nil attributes, and the serialized
chunk list is non-empty, it sets `attrs.FileSize = uint64(chunks.Size())`
and replaces the raw chunk list — in every other case it returns `nil`
without touching the entry. -/
def entryUpdate (pb : PBEntry) (cso : Option ChunksState) : Except String PBEntry :=
  match cso with
  | none => .error "filer_entry: failed to update entry, chunks not provided"
  | some cs =>
    let entries := chunksPB cs
    match pb.attributes with
    | some a =>
      if !pb.isDirectory && decide (entries.length > 0) then
        .ok { pb with attributes := some { a with fileSize := cs.size.toNat },
                      chunks := entries }
      else .ok pb
    | none => .ok pb

/-! ## Filer Path classification (`cluster/filer`, `Path`)

`filepath.Base` is modelled for clean absolute paths (no `.`/`..`
segments), which is the form the filer produces.  The three regex
classifiers reduce to: name ends in `.part`; path contains `.uploads`;
path starts with `/topics`. -/

/-- `Path.Name()` (`filepath.Base`) for clean paths: the last non-empty
`/`-separated component, `/` for the root path, `.` for the empty
string.  Implemented on character lists so that the kernel can evaluate
it. -/
def baseName (p : String) : String :=
  let rev := p.toList.reverse.dropWhile (fun ch => ch = '/')
  let comp := (rev.takeWhile (fun ch => ch ≠ '/')).reverse
  if comp.isEmpty then
    (if p.toList.head? = some '/' then "/" else ".")
  else String.mk comp

/-- `Path.IsFileFragment()`: the regex `.*\.(part)$` applied to
`Path.Name()` — the name ends with `.part`. -/
def isFileFragment (p : String) : Bool :=
  List.isSuffixOf ".part".toList (baseName p).toList

/-- Whether `pat` occurs as a contiguous sublist of the second list. -/
def listContains (pat : List Char) : List Char → Bool
  | [] => pat.isEmpty
  | c :: rest => List.isPrefixOf pat (c :: rest) || listContains pat rest

/-- `Path.IsTempResource()`: the regex `.*/?\.(uploads)/?` is an
unanchored match, so it holds exactly when the path contains the literal
`.uploads`. -/
def isTempResource (p : String) : Bool :=
  listContains ".uploads".toList p.toList

/-- `Path.IsSystemResource()`: the regex `^/(topics)/?` holds exactly when
the path starts with `/topics`. -/
def isSystemResource (p : String) : Bool :=
  List.isPrefixOf "/topics".toList p.toList

/-! ## Metadata event pipeline (`watch` package) -/

/-- The fields of `filer_pb.SubscribeMetadataRequest` the watcher
mutates: the resume cursor `SinceNs`. -/
structure SubscribeRequest where
  sinceNs : Int
  untilNs : Int := 0
deriving DecidableEq, Repr

/-- The fields of `filer_pb.SubscribeMetadataResponse` the claims use. -/
structure MetadataResponse where
  tsNs : Int
  directory : String := ""
deriving DecidableEq, Repr

/-- `metadataClient.Recv`: forwards the stream result; on success it sets
the request cursor to the notification's timestamp (`c.req.SinceNs =
resp.TsNs`). -/
def metadataClientRecv (req : SubscribeRequest)
    (incoming : Except String MetadataResponse) :
    Except String MetadataResponse × SubscribeRequest :=
  match incoming with
  | .error e => (.error e, req)
  | .ok resp => (.ok resp, { req with sinceNs := resp.tsNs })

/-- A resolved filer entry as the watcher sees it: its absolute path and
whether it is a directory.  `Entry.Name()` is `baseName` of the path. -/
structure WatchEntry where
  path : String
  isDir : Bool
deriving DecidableEq, Repr

/-- `Entry.Name()` on a watcher entry. -/
def WatchEntry.name (e : WatchEntry) : String :=
  baseName e.path

/-- The watcher state consulted by `prepareEvents`: the namespace catalog
(`catalog.Catalog.Find`, an external collaborator, modelled as a total
path-to-namespace map), the configured namespace excludes, and the
outcomes of the fallible external steps of `prepareEvent`: `fsMeta`
stands for the `seaweedfs.FSEntry` + `typeconv.FileMetadata` resolution
of an entry, and `hashContent` for the optional content-address
(`ipfsRepo.Add`) and hash pipeline (`prepareHash`: `Stat` retry, `Open`,
copy) run on a non-fragment file entry — the step that fails, for
example, when the hashed path no longer exists. -/
structure WatcherCfg where
  catalog : String → String
  nsExcludes : List String
  fsMeta : WatchEntry → Except String Unit
  hashContent : WatchEntry → Except String Unit

/-- A downstream storage event.  The metadata produced by the external
`typeconv.FileMetadata` collaborator is modelled by its path, per the
spec's event record `{type, namespace, metadata (path, ...)}`. -/
structure Event where
  etype : String
  nspace : String
  path : String
deriving DecidableEq, Repr

/-- `watcher.prepareEvent`, with its fallible steps in source order: the
`FSEntry`/`FileMetadata` resolution first (any entry), then — for
non-fragment entries only — the content-address/hash pipeline when the
entry is not a directory.  Fragment entries short-circuit with the
`::fragment-upload` namespace suffix and no hashing; any step's failure
fails the call. -/
def prepareEvent (cfg : WatcherCfg) (ns : String) (e : WatchEntry)
    (etype : String) : Except String Event :=
  match cfg.fsMeta e with
  | .error err => .error err
  | .ok _ =>
    if isFileFragment e.path then
      .ok { etype := etype, nspace := ns ++ "::fragment-upload", path := e.path }
    else if !e.isDir then
      match cfg.hashContent e with
      | .error err => .error err
      | .ok _ => .ok { etype := etype, nspace := ns, path := e.path }
    else .ok { etype := etype, nspace := ns, path := e.path }

/-- `watcher.prepareEvents`, from the already-resolved old/new entries
(`newEntry` resolution maps `NotExist` to `nil`): the old-entry side
emits a deletion only when a new entry is also present and is a directory
or differs in path or name; the new-entry side emits a creation, or a
change when the old entry is a non-directory at the same path.  Both
sides skip temporary and system resources and excluded namespaces, and a
`prepareEvent` failure on either side aborts the whole notification with
an error — zero events are emitted. -/
def prepareEvents (cfg : WatcherCfg) (oldEntry newEntry : Option WatchEntry) :
    Except String (List Event) :=
  let oldRes : Except String (List Event) :=
    match oldEntry with
    | none => .ok []
    | some oe =>
      if !isTempResource oe.path && !isSystemResource oe.path then
        let ns := cfg.catalog oe.path
        if !cfg.nsExcludes.contains ns then
          match newEntry with
          | some ne =>
            if ne.isDir || !(oe.path == ne.path) || !(oe.name == ne.name) then
              match prepareEvent cfg ns oe "deletion" with
              | .error err => .error err
              | .ok e => .ok [e]
            else .ok []
          | none => .ok []
        else .ok []
      else .ok []
  match oldRes with
  | .error err => .error err
  | .ok oldEvents =>
    match newEntry with
    | none => .ok oldEvents
    | some ne =>
      if !isTempResource ne.path && !isSystemResource ne.path then
        let etype :=
          match oldEntry with
          | some oe =>
            if !oe.isDir && oe.path == ne.path then "change" else "creation"
          | none => "creation"
        let ns := cfg.catalog ne.path
        if !cfg.nsExcludes.contains ns then
          match prepareEvent cfg ns ne etype with
          | .error err => .error err
          | .ok e => .ok (oldEvents ++ [e])
        else .ok oldEvents
      else .ok oldEvents

/-! ## Invariants and reachable states -/

/-- The keys of the chunk map agree with the stored chunks' intervals
(every state built through `Chunks.Add` satisfies this, since `Add`
stores each chunk under its own interval). -/
def KeysMatch (s : ChunksState) : Prop :=
  ∀ kv ∈ s.chunks, kv.1 = kv.2.offset

instance (s : ChunksState) : Decidable (KeysMatch s) := by
  unfold KeysMatch; infer_instance

/-- Two chunks in writer order: the first ends before the second starts
and carries the smaller position index. -/
def chunkRel (c d : Chunk) : Prop :=
  c.offset.End ≤ d.offset.Start ∧ c.position < d.position

/-- The chunk-set invariant for in-order insertion: each interval is
well-formed and the chunks are pairwise ordered by `chunkRel` in
insertion order. -/
def ChunksInv (s : ChunksState) : Prop :=
  (∀ c ∈ vals s, c.offset.Start ≤ c.offset.End) ∧
    List.Pairwise chunkRel (vals s)

/-- Chunk sets reachable from `NewChunks` by single-chunk `Add` calls
that append in ascending offset order (each added chunk starts at or
after the end of every chunk already present), as a single `Writer`
produces them. -/
inductive ReachableInOrder : ChunksState → Prop where
  | base (path : String) : ReachableInOrder (NewChunks path)
  | step (s : ChunksState) (fc : FileChunk)
      (hs : ReachableInOrder s)
      (hord : ∀ kv ∈ s.chunks, kv.2.offset.End ≤ fc.offset) :
      ReachableInOrder (s.Add [fc]).2

/-! ## Concrete states used by witnesses and counterexamples -/

/-- A chunk set holding one 10-byte chunk at offset 0. -/
def sDup : ChunksState := ((NewChunks "/f").Add [⟨"a", 0, 10, 0⟩]).2

/-- A chunk set built from chunk sizes 10, 5, 7 (offsets 0, 10, 15). -/
def sMinMax : ChunksState :=
  (((((NewChunks "/f").Add [⟨"a", 0, 10, 0⟩]).2.Add
      [⟨"b", 10, 5, 0⟩]).2.Add [⟨"c", 15, 7, 0⟩]).2)

/-- Two adjacent 10-byte chunks `[0,10]`, `[10,20]`. -/
def sAdj : ChunksState :=
  (((NewChunks "/f").Add [⟨"a", 0, 10, 0⟩]).2.Add [⟨"b", 10, 10, 0⟩]).2

/-- A chunk set holding a single zero-size chunk at offset 0. -/
def sZero : ChunksState := ((NewChunks "/f").Add [⟨"z", 0, 0, 0⟩]).2

/-- A chunk set built by adding the chunk `[10,20]` before `[0,10]`
(out of offset order). -/
def sOutOfOrder : ChunksState :=
  (((NewChunks "/f").Add [⟨"b", 10, 10, 0⟩]).2.Add [⟨"a", 0, 10, 0⟩]).2

/-- First chunk of the in-order witness sequence: `[0,10]`. -/
def fcInOrder1 : FileChunk := ⟨"a", 0, 10, 0⟩

/-- Second chunk of the in-order witness sequence: `[10,15]`. -/
def fcInOrder2 : FileChunk := ⟨"b", 10, 5, 0⟩

/-- The chunk set built by adding `fcInOrder1` then `fcInOrder2`, in
ascending offset order. -/
def sInOrder : ChunksState :=
  (((NewChunks "/f").Add [fcInOrder1]).2.Add [fcInOrder2]).2

/-- The writer state after a first successful `Close` on a fresh writer:
queue channel closed, `closed` flag set, "already closed" stored. -/
def closedWriter : WriterState :=
  { queueOpen := false, closed := true,
    err := some "chunk_writer: already closed", bufLen := 0, offset := 0 }

/-- A fresh (open, error-free) reader over no data. -/
def openReader : ReaderState :=
  { err := none, offset := 0, size := 0, buf := [], queue := [],
    closed := false, cancelled := false }

/-- The reader state after a first successful `Close` of `openReader`. -/
def closedReader : ReaderState :=
  { openReader with closed := true, cancelled := true }

/-- A reader positioned at end of file with a pending prefetch result. -/
def eofReader : ReaderState :=
  { err := none, offset := 5, size := 5, buf := [], queue := [.ok [1, 2, 3]],
    closed := false, cancelled := false }

/-- A reader mid-file, used for the seek-past-end witness. -/
def midReader : ReaderState :=
  { err := none, offset := 2, size := 5, buf := [7, 8], queue := [.ok [9]],
    closed := false, cancelled := false }

/-- A watcher configuration mapping every path to namespace `"a"`, with
no namespace excludes and all external preparation steps succeeding. -/
def cfgA : WatcherCfg :=
  { catalog := fun _ => "a", nsExcludes := [],
    fsMeta := fun _ => .ok (), hashContent := fun _ => .ok () }

/-- The same configuration with a failing hash pipeline, as when the
hashed path has already been deleted. -/
def cfgFail : WatcherCfg :=
  { cfgA with hashContent := fun _ => .error "stat: not exist" }

/-- A watched, non-temporary, non-system file entry. -/
def oeWatched : WatchEntry := { path := "/buckets/a/x.txt", isDir := false }

/-- A rename target for `oeWatched` (different path and name). -/
def neRenamed : WatchEntry := { path := "/buckets/a/y.txt", isDir := false }

/-- A file protobuf entry whose attributes are missing. -/
def pbNoAttrs : PBEntry :=
  { name := "x.txt", isDirectory := false, attributes := none, chunks := [] }

/-- A file protobuf entry with attributes recording size 0. -/
def pbWithAttrs : PBEntry :=
  { name := "x.txt", isDirectory := false,
    attributes := some { fileSize := 0, mtime := 0 }, chunks := [] }

/-- A chunk set holding one 6-byte chunk, for the entry-hook claims. -/
def csSix : ChunksState := ((NewChunks "/b/x.txt").Add [⟨"a", 0, 6, 0⟩]).2

/-! ## Theorems -/

/-- C5: `Chunks.Add` skips a chunk whose offset key equals that of an
already-present chunk: the existing chunk (and the whole set state —
chunks, size, min/max, positions) is unchanged, and the duplicate does
not count towards the number inserted. -/
theorem add_duplicate_offset_is_skipped (s : ChunksState) (fc : FileChunk)
    (h : containsKey s.chunks (offsetKey fc) = true) :
    s.Add [fc] = (0, s) := by
  simp [ChunksState.Add, addLoop, addOne, h]

/-- Witness for C5: re-adding the chunk already present in `sDup` inserts
nothing and leaves the set untouched. -/
theorem add_duplicate_offset_is_skipped_witness :
    containsKey sDup.chunks (offsetKey ⟨"a", 0, 10, 0⟩) = true ∧
      sDup.Add [⟨"a", 0, 10, 0⟩] = (0, sDup) :=
  ⟨by decide, add_duplicate_offset_is_skipped sDup ⟨"a", 0, 10, 0⟩ (by decide)⟩

/-- C6 (failing input): after adding chunks of sizes 10, 5, 7, the
tracked `chunkSizeMin` is 7 even though the smallest member chunk has
size 5 (the fourth guard of `setChunkMinMax` compares against
`chunkSizeMax`); `size` and `chunkSizeMax` are correct. -/
theorem min_chunk_size_diverges :
    sMinMax.size = 22 ∧ sMinMax.chunkSizeMax = 10 ∧
      sMinMax.chunkSizeMin = 7 ∧
      (∃ c ∈ vals sMinMax, c.Size = 5) ∧
      (∀ c ∈ vals sMinMax, 5 ≤ c.Size) := by
  decide

/-- C7 (counterexample): on a received notification with timestamp 5 the
cursor is set to 5, not to 5 + 1 — `Recv` stores `resp.TsNs` itself, so a
reconnect resumes from `T`, not `T+1`. -/
theorem recv_cursor_counterexample :
    (metadataClientRecv { sinceNs := 0 } (.ok { tsNs := 5 })).2.sinceNs = 5 ∧
      (5 : Int) ≠ 5 + 1 :=
  ⟨rfl, by decide⟩

/-- C7 (amended): on every successfully received notification with
timestamp `T`, `Recv` sets the resume cursor to `T` itself (a reconnect
resumes from `T`, so the notification already processed at `T` may be
re-delivered). -/
theorem recv_sets_cursor_to_ts (req : SubscribeRequest) (resp : MetadataResponse) :
    (metadataClientRecv req (.ok resp)).2.sinceNs = resp.tsNs :=
  rfl

/-- C2 (evaluation at the failing input): the first `Writer.Close` on a
fresh writer succeeds and stores the "already closed" error, but the
second call re-executes `close(w.queue)` on the already-closed queue
channel and panics instead of returning the stored error; the reader,
by contrast, does return "already closed" on its second `Close`. -/
theorem writer_second_close_panics :
    newWriterState.Close = .ok none closedWriter ∧
      closedWriter.Close = .panicked "close of closed channel" ∧
      openReader.Close = (none, closedReader) ∧
      closedReader.Close = (some "chunk_reader: already closed", closedReader) :=
  ⟨rfl, rfl, rfl, rfl⟩

/-- C9: once the reader's position has reached the total logical size
(and no error is stored), `Read` with a non-empty destination returns
`(0, EOF)` and leaves the whole reader state — including the prefetch
queue — untouched. -/
theorem read_at_eof (r : ReaderState) (blen : Nat)
    (hb : 0 < blen) (he : r.err = none) (hoff : r.size ≤ r.offset) :
    r.Read blen = ((0, some .eof), r) := by
  unfold ReaderState.Read
  rw [if_neg (Nat.pos_iff_ne_zero.mp hb), he]
  simp [hoff]

/-- Witness for C9: a reader at end of file with a pending prefetch
result returns `(0, EOF)` without consuming the prefetch queue. -/
theorem read_at_eof_witness :
    0 < 4 ∧ eofReader.err = none ∧ eofReader.size ≤ eofReader.offset ∧
      eofReader.Read 4 = ((0, some .eof), eofReader) :=
  ⟨by decide, rfl, by decide, read_at_eof eofReader 4 (by decide) rfl (by decide)⟩

/-- C10: `Seek(off, Start)` with `off` strictly past the total size
returns `(off, nil)` and leaves the reader state unchanged, for every
possible re-initialization function — i.e. the prefetch pipeline is not
re-initialized and the internal offset does not move. -/
theorem seek_past_end_is_noop (reinit : Int → Except String ReaderState)
    (r : ReaderState) (off : Int) (hs : 0 ≤ r.size) (h : r.size < off) :
    ReaderState.Seek reinit r off 0 = ((off, none), r) := by
  unfold ReaderState.Seek
  rw [if_pos rfl]
  simp only []
  rw [if_neg (by omega), if_neg (fun hc => absurd hc.2 (by omega))]

/-- Witness for C10: seeking to 7 in a reader of size 5 returns
`(7, nil)` and leaves the buffered bytes, queue and offset alone even
though the supplied re-initializer would fail if invoked. -/
theorem seek_past_end_is_noop_witness :
    (0 : Int) ≤ midReader.size ∧ midReader.size < 7 ∧
      ReaderState.Seek (fun _ => .error "reinit") midReader 7 0
        = ((7, none), midReader) :=
  ⟨by decide, by decide,
    seek_past_end_is_noop (fun _ => .error "reinit") midReader 7 (by decide) (by decide)⟩

/-- A successful `find` returns an entry of the map whose key interval
`Contains` the requested offset. -/
theorem findChunk_ok {p : Int} {l : List (Offset × Chunk)} {oc : Offset × Chunk}
    (h : findChunk p l = .ok oc) : oc.1.Contains p = true ∧ oc ∈ l := by
  induction l with
  | nil => simp [findChunk] at h
  | cons kv rest ih =>
    rw [findChunk] at h
    by_cases hc : kv.1.Contains p
    · rw [if_pos hc] at h
      cases h
      exact ⟨hc, List.mem_cons_self _ _⟩
    · rw [if_neg hc] at h
      obtain ⟨h1, h2⟩ := ih h
      exact ⟨h1, List.mem_cons_of_mem _ h2⟩

/-- C3 (counterexample): with adjacent chunks `[0,10]`, `[10,20]`
(total size 20), `AtOffset 10` returns the first chunk, for which
`10 < offset.End` fails — `Contains` is inclusive at both ends; and
`AtOffset 0` on a set holding a single zero-size chunk returns that
size-0 chunk. -/
theorem atOffset_boundary_counterexample :
    ((0 : Int) ≤ 10 ∧ (10 : Int) < sAdj.size) ∧
      sAdj.AtOffset 10 = .ok (NewChunk ⟨"a", 0, 10, 0⟩ 0) ∧
      ¬((10 : Int) < (NewChunk ⟨"a", 0, 10, 0⟩ 0).offset.End) ∧
      sZero.AtOffset 0 = .ok (NewChunk ⟨"z", 0, 0, 0⟩ 0) ∧
      (NewChunk ⟨"z", 0, 0, 0⟩ 0).Size = 0 :=
  ⟨by decide, rfl, by decide, rfl, by decide⟩

/-- C3 (amended): whenever `AtOffset p` returns a chunk `c` (on a set
whose map keys agree with the chunks' intervals, as `Add` maintains),
`c.offset.Start ≤ p ≤ c.offset.End` — the closed-interval version of the
claim; `p = c.offset.End` is possible at chunk boundaries and a size-0
chunk can be returned at its point offset. -/
theorem atOffset_within_closed_interval (s : ChunksState) (p : Int) (c : Chunk)
    (hk : KeysMatch s) (h : s.AtOffset p = .ok c) :
    c.offset.Start ≤ p ∧ p ≤ c.offset.End := by
  unfold ChunksState.AtOffset at h
  split at h
  · exact absurd h (by simp)
  · cases hf : findChunk p s.chunks with
    | error e => rw [hf] at h; exact absurd h (by simp)
    | ok oc =>
      rw [hf] at h
      obtain ⟨hc, hmem⟩ := findChunk_ok hf
      have hkey := hk oc hmem
      have hco : oc.2 = c := by cases h; rfl
      rw [← hco, ← hkey]
      simpa [Offset.Contains] using hc

/-- Witness for C3 (amended): `AtOffset 3` on the adjacent-chunk set
returns the first chunk, and 3 lies within its closed interval. -/
theorem atOffset_within_closed_interval_witness :
    KeysMatch sAdj ∧ sAdj.AtOffset 3 = .ok (NewChunk ⟨"a", 0, 10, 0⟩ 0) ∧
      ((NewChunk ⟨"a", 0, 10, 0⟩ 0).offset.Start ≤ 3 ∧
        (3 : Int) ≤ (NewChunk ⟨"a", 0, 10, 0⟩ 0).offset.End) :=
  ⟨by decide, rfl,
    atOffset_within_closed_interval sAdj 3 (NewChunk ⟨"a", 0, 10, 0⟩ 0)
      (by decide) rfl⟩

/-- C8 (counterexample): the on-mutation hook invoked for a file entry
whose raw metadata has no attribute fields returns `nil` (no
`InvalidState` error) and leaves the raw metadata entirely unchanged. -/
theorem entry_update_missing_attrs_counterexample :
    pbNoAttrs.isDirectory = false ∧ pbNoAttrs.attributes = none ∧
      0 < (chunksPB csSix).length ∧
      entryUpdate pbNoAttrs (some csSix) = .ok pbNoAttrs :=
  ⟨rfl, rfl, by decide, rfl⟩

/-- C8 (amended): for a file entry whose raw metadata carries attribute
fields and whose chunk set serializes to a non-empty list, the hook sets
`attributes.FileSize` to the chunk set's size and replaces the raw chunk
list before returning, so that `Entry.Size()` equals `chunks.Size()`;
when the attribute fields are missing the hook silently returns `nil`
without modifying the entry (no `InvalidState` error). -/
theorem entry_update_refreshes_size (pb : PBEntry) (cs : ChunksState)
    (a : PBAttributes) (hd : pb.isDirectory = false) (ha : pb.attributes = some a)
    (hne : 0 < (chunksPB cs).length) (hsz : 0 ≤ cs.size) :
    entryUpdate pb (some cs) =
        .ok { pb with attributes := some { a with fileSize := cs.size.toNat },
                      chunks := chunksPB cs } ∧
      entrySize { pb with attributes := some { a with fileSize := cs.size.toNat },
                          chunks := chunksPB cs } = cs.size ∧
      (∀ pb' : PBEntry, pb'.attributes = none →
        entryUpdate pb' (some cs) = .ok pb') := by
  refine ⟨?_, ?_, ?_⟩
  · simp [entryUpdate, ha, hd, hne]
  · simp [entrySize, hd, Int.toNat_of_nonneg hsz]
  · intro pb' ha'
    simp [entryUpdate, ha']

/-- Witness for C8 (amended): updating a zero-size file entry from the
6-byte chunk set stores size 6 on the raw metadata and `Entry.Size()`
then equals the chunk set's size. -/
theorem entry_update_refreshes_size_witness :
    entryUpdate pbWithAttrs (some csSix) =
        .ok { pbWithAttrs with
                attributes := some { fileSize := csSix.size.toNat, mtime := 0 },
                chunks := chunksPB csSix } ∧
      entrySize { pbWithAttrs with
                    attributes := some { fileSize := csSix.size.toNat, mtime := 0 },
                    chunks := chunksPB csSix } = csSix.size ∧
      (∀ pb' : PBEntry, pb'.attributes = none →
        entryUpdate pb' (some csSix) = .ok pb') :=
  entry_update_refreshes_size pbWithAttrs csSix ⟨0, 0⟩ rfl rfl (by decide) (by decide)

/-- A successful `prepareEvent` yields an event with the requested type
and the entry's own path, whatever the fragment/directory branch. -/
theorem prepareEvent_ok {cfg : WatcherCfg} {ns : String} {e : WatchEntry}
    {t : String} {ev : Event} (h : prepareEvent cfg ns e t = .ok ev) :
    ev.etype = t ∧ ev.path = e.path := by
  unfold prepareEvent at h
  split at h
  · exact Except.noConfusion h
  · split at h
    · injection h with h; subst h; exact ⟨rfl, rfl⟩
    · split at h
      · split at h
        · exact Except.noConfusion h
        · injection h with h; subst h; exact ⟨rfl, rfl⟩
      · injection h with h; subst h; exact ⟨rfl, rfl⟩

/-- C1 (counterexample): a notification that only carries an old entry —
a pure file deletion — produces no events at all, even though the old
entry is watched, not temporary, not system, not namespace-excluded, and
every preparation step would succeed: the deletion branch of
`prepareEvents` additionally requires a resolved new entry. -/
theorem deletion_without_new_entry_counterexample :
    isTempResource oeWatched.path = false ∧
      isSystemResource oeWatched.path = false ∧
      cfgA.nsExcludes.contains (cfgA.catalog oeWatched.path) = false ∧
      prepareEvents cfgA (some oeWatched) none = .ok [] :=
  ⟨by decide, by decide, by decide, by rfl⟩

/-- C1 (amended): when a notification resolves to an old entry that is
watched (not temporary, not system, not namespace-excluded) *and* to a
new entry that is a directory or differs from the old one in path or
name, then (a) whenever `prepareEvents` succeeds, the emitted batch
contains exactly one deletion event and its metadata path equals the
deleted (old) path, and (b) whenever preparing the deletion event fails
(e.g. hashing the already-deleted old path), the whole notification
fails with that error and zero events are emitted. -/
theorem deletion_emitted_for_old_entry (cfg : WatcherCfg) (oe ne : WatchEntry)
    (ht : isTempResource oe.path = false)
    (hsys : isSystemResource oe.path = false)
    (hx : cfg.nsExcludes.contains (cfg.catalog oe.path) = false)
    (hdiff : (ne.isDir || !(oe.path == ne.path) || !(oe.name == ne.name)) = true) :
    (∀ evs : List Event, prepareEvents cfg (some oe) (some ne) = .ok evs →
      (evs.filter (fun ev => ev.etype == "deletion")).map Event.path
        = [oe.path]) ∧
    (∀ err : String,
      prepareEvent cfg (cfg.catalog oe.path) oe "deletion" = .error err →
      prepareEvents cfg (some oe) (some ne) = .error err) := by
  have hred : prepareEvents cfg (some oe) (some ne)
      = match prepareEvent cfg (cfg.catalog oe.path) oe "deletion" with
        | .error err => .error err
        | .ok edel =>
          if !isTempResource ne.path && !isSystemResource ne.path then
            if !cfg.nsExcludes.contains (cfg.catalog ne.path) then
              match prepareEvent cfg (cfg.catalog ne.path) ne
                  (if !oe.isDir && oe.path == ne.path then "change"
                   else "creation") with
              | .error err => .error err
              | .ok enew => .ok ([edel] ++ [enew])
            else .ok [edel]
          else .ok [edel] := by
    simp only [prepareEvents, ht, hsys, hx, hdiff, Bool.not_false,
      Bool.and_self, if_true, ite_true]
    cases prepareEvent cfg (cfg.catalog oe.path) oe "deletion" <;> rfl
  constructor
  · intro evs hok
    rw [hred] at hok
    split at hok
    · exact Except.noConfusion hok
    · next edel heqdel =>
      obtain ⟨hdelT, hdelP⟩ := prepareEvent_ok heqdel
      have hone : (List.filter (fun ev => ev.etype == "deletion") [edel]).map
          Event.path = [oe.path] := by
        simp [List.filter, hdelT, hdelP]
      split at hok
      · split at hok
        · split at hok
          · exact Except.noConfusion hok
          · next enew heqnew =>
            injection hok with hok
            subst hok
            obtain ⟨hnewT, _⟩ := prepareEvent_ok heqnew
            have hdrop : (enew.etype == "deletion") = false := by
              rw [hnewT]; split <;> decide
            simp [List.filter_append, List.filter, hdelT, hdelP, hdrop]
        · injection hok with hok; subst hok; exact hone
      · injection hok with hok; subst hok; exact hone
  · intro err hfail
    rw [hred, hfail]

/-- Witness for C1 (amended): renaming `x.txt` to `y.txt` under a watched
prefix with every preparation step succeeding emits exactly one deletion
whose path is the old path; the same rename with a failing hash pipeline
(the old path is already gone) fails the whole notification — no events
at all. -/
theorem deletion_emitted_for_old_entry_witness :
    prepareEvents cfgA (some oeWatched) (some neRenamed)
        = .ok [{ etype := "deletion", nspace := "a", path := "/buckets/a/x.txt" },
               { etype := "creation", nspace := "a", path := "/buckets/a/y.txt" }] ∧
    (([{ etype := "deletion", nspace := "a", path := "/buckets/a/x.txt" },
       { etype := "creation", nspace := "a", path := "/buckets/a/y.txt" }]
        : List Event).filter (fun ev => ev.etype == "deletion")).map Event.path
      = [oeWatched.path] ∧
    prepareEvent cfgFail (cfgFail.catalog oeWatched.path) oeWatched "deletion"
        = .error "stat: not exist" ∧
    prepareEvents cfgFail (some oeWatched) (some neRenamed)
        = .error "stat: not exist" :=
  ⟨by rfl,
    (deletion_emitted_for_old_entry cfgA oeWatched neRenamed
        (by decide) (by decide) (by decide) (by decide)).1 _ (by rfl),
    by rfl,
    (deletion_emitted_for_old_entry cfgFail oeWatched neRenamed
        (by decide) (by decide) (by decide) (by decide)).2 "stat: not exist"
      (by rfl)⟩

/-- C4 (counterexample): adding `[10,20]` and then `[0,10]` — a legal
`Add` sequence — yields a set whose position order violates both the
non-overlap invariant (`c1.offset.End ≤ c2.offset.Start`) and
non-decreasing `offset.Start`: the chunk at position 0 is `[10,20]` and
the chunk at position 1 is `[0,10]`. -/
theorem add_out_of_order_counterexample :
    (∃ c1 ∈ vals sOutOfOrder, ∃ c2 ∈ vals sOutOfOrder,
      c1.position < c2.position ∧ ¬(c1.offset.End ≤ c2.offset.Start)) ∧
    (∃ c1 ∈ vals sOutOfOrder, ∃ c2 ∈ vals sOutOfOrder,
      c1.position < c2.position ∧ ¬(c1.offset.Start ≤ c2.offset.Start)) := by
  decide

/-- The position index recorded by `NewChunk` is the one passed in. -/
theorem NewChunk_position (fc : FileChunk) (p : Nat) :
    (NewChunk fc p).position = p := rfl

/-- `setChunkMinMax` only touches the min/max scalars, never the chunk
map. -/
theorem setChunkMinMax_chunks (s : ChunksState) (x : Int) :
    (setChunkMinMax s x).chunks = s.chunks := by
  unfold setChunkMinMax
  dsimp only
  repeat' split
  all_goals rfl

/-- Insertion sort by `Offset.Before` is the identity on lists that are
already pairwise ordered. -/
theorem sortChunks_of_pairwise {l : List Chunk}
    (h : List.Pairwise (fun c d => c.offset.End ≤ d.offset.Start) l) :
    sortChunks l = l := by
  induction l with
  | nil => rfl
  | cons c cs ih =>
    rw [sortChunks, ih (List.Pairwise.of_cons h)]
    cases cs with
    | nil => rfl
    | cons d ds =>
      have hcd : c.offset.End ≤ d.offset.Start :=
        (List.pairwise_cons.mp h).1 d (List.mem_cons_self _ _)
      rw [insertChunk, if_pos]
      unfold Offset.Before
      exact decide_eq_true hcd

/-- In a list that is pairwise ordered by `chunkRel`, the last element
carries the maximal position index. -/
theorem pairwise_last_position {l : List Chunk} (hne : l ≠ [])
    (h : List.Pairwise chunkRel l) :
    ∀ c ∈ l, c.position ≤ (l.getLast hne).position := by
  induction l with
  | nil => exact absurd rfl hne
  | cons a rest ih =>
    intro c hc
    cases rest with
    | nil =>
      rcases List.mem_singleton.mp hc with rfl
      exact le_refl _
    | cons b bs =>
      rw [List.getLast_cons (by simp)]
      have hPtail : List.Pairwise chunkRel (b :: bs) := (List.pairwise_cons.mp h).2
      rcases List.mem_cons.mp hc with rfl | hc2
      · have hrel := (List.pairwise_cons.mp h).1 _
          (List.getLast_mem (l := b :: bs) (by simp))
        exact le_of_lt hrel.2
      · exact ih (by simp) hPtail c hc2

/-- Under the in-order invariant, the position counter picked by `Add`
is one more than the position of the last chunk in insertion order. -/
theorem addP_eq {s : ChunksState} (hinv : ChunksInv s) (hne : vals s ≠ []) :
    addP s = ((vals s).getLast hne).position + 1 := by
  unfold addP
  have hlen : s.chunks.length > 0 := by
    cases hcs : s.chunks with
    | nil => exact absurd (by simp [vals, hcs]) hne
    | cons kv rest => simp
  rw [if_pos hlen]
  have hsort : chunkList s = vals s :=
    sortChunks_of_pairwise (hinv.2.imp fun h => h.1)
  rw [hsort, List.getLast?_eq_getLast _ hne]

/-- `Add` of a single chunk returns the state produced by one `addOne`
step at the current position counter. -/
theorem add_single (s : ChunksState) (fc : FileChunk) :
    (s.Add [fc]).2 = (addOne s (addP s) fc).2 := by
  unfold ChunksState.Add
  rw [addLoop]
  by_cases h : (addOne s (addP s) fc).1 <;> simp [h, addLoop]

/-- The chunk map after an inserting `addOne` step is the old map with
the new chunk appended under its interval key. -/
theorem addOne_insert {s : ChunksState} {p : Nat} {fc : FileChunk}
    (h : containsKey s.chunks (offsetKey fc) = false) :
    (addOne s p fc).2.chunks = s.chunks ++ [(offsetKey fc, NewChunk fc p)] := by
  unfold addOne
  rw [if_neg (by rw [h]; exact Bool.false_ne_true)]
  exact setChunkMinMax_chunks _ _

/-- Every chunk set reached by in-order single-chunk `Add` calls
satisfies the well-formedness and pairwise-order invariant. -/
theorem reachable_inv {s : ChunksState} (h : ReachableInOrder s) :
    ChunksInv s := by
  induction h with
  | base path => exact ⟨by simp [vals, NewChunks], by simp [vals, NewChunks]⟩
  | step s fc hs hord ih =>
    rw [add_single]
    by_cases hdup : containsKey s.chunks (offsetKey fc) = true
    · have : (addOne s (addP s) fc).2 = s := by simp [addOne, hdup]
      rw [this]; exact ih
    · have hch : (addOne s (addP s) fc).2.chunks
          = s.chunks ++ [(offsetKey fc, NewChunk fc (addP s))] :=
        addOne_insert (Bool.not_eq_true _ ▸ hdup)
      have hvals : vals (addOne s (addP s) fc).2
          = vals s ++ [NewChunk fc (addP s)] := by
        simp [vals, hch]
      constructor
      · intro c hc
        rw [hvals] at hc
        rcases List.mem_append.mp hc with hc2 | hc2
        · exact ih.1 c hc2
        · rcases List.mem_singleton.mp hc2 with rfl
          show fc.offset ≤ fc.offset + (fc.size : Int)
          exact le_add_of_nonneg_right (Int.ofNat_nonneg _)
      · rw [hvals]
        refine List.pairwise_append.mpr ⟨ih.2, List.pairwise_singleton _ _, ?_⟩
        intro a ha b hb
        rcases List.mem_singleton.mp hb with rfl
        constructor
        · obtain ⟨kv, hkv, rfl⟩ := List.mem_map.mp ha
          exact hord kv hkv
        · have hne : vals s ≠ [] := List.ne_nil_of_mem ha
          rw [addP_eq ih hne]
          have hle := pairwise_last_position hne ih.2 a ha
          simp only [NewChunk_position]
          omega

/-- C4 (amended): after any sequence of single-chunk `Add` calls that
append in ascending offset order (each chunk starting at or after the
end of every chunk already present, as a single writer produces), any
two chunks with `c1.position < c2.position` satisfy
`c1.offset.End ≤ c2.offset.Start`, and in particular the chunks taken in
position order have non-decreasing `offset.Start`.  For out-of-order
`Add` sequences the invariant fails. -/
theorem add_in_order_position_sorted (s : ChunksState)
    (h : ReachableInOrder s) (c1 c2 : Chunk)
    (h1 : c1 ∈ vals s) (h2 : c2 ∈ vals s)
    (hp : c1.position < c2.position) :
    c1.offset.End ≤ c2.offset.Start ∧ c1.offset.Start ≤ c2.offset.Start := by
  obtain ⟨hwf, hpair⟩ := reachable_inv h
  obtain ⟨i, hi⟩ := List.mem_iff_get.mp h1
  obtain ⟨j, hj⟩ := List.mem_iff_get.mp h2
  have hrel : chunkRel c1 c2 := by
    rcases lt_trichotomy (i : Nat) (j : Nat) with hij | hij | hij
    · have := List.pairwise_iff_get.mp hpair i j hij
      rw [hi, hj] at this
      exact this
    · have hijf : i = j := Fin.ext hij
      rw [hijf, hj] at hi
      exact absurd hp (hi ▸ lt_irrefl _)
    · have := List.pairwise_iff_get.mp hpair j i hij
      rw [hi, hj] at this
      have h21 : c2.position < c1.position := this.2
      exact absurd hp (by omega)
  exact ⟨hrel.1, le_trans (hwf c1 h1) hrel.1⟩

/-- Witness for C4 (amended): in the two-chunk in-order set, the chunk
at position 0 ends at the start of the chunk at position 1 and starts no
later than it. -/
theorem add_in_order_position_sorted_witness :
    NewChunk fcInOrder1 0 ∈ vals sInOrder ∧
      NewChunk fcInOrder2 1 ∈ vals sInOrder ∧
      (NewChunk fcInOrder1 0).position < (NewChunk fcInOrder2 1).position ∧
      ((NewChunk fcInOrder1 0).offset.End ≤ (NewChunk fcInOrder2 1).offset.Start ∧
        (NewChunk fcInOrder1 0).offset.Start ≤ (NewChunk fcInOrder2 1).offset.Start) :=
  ⟨by decide, by decide, by decide,
    add_in_order_position_sorted sInOrder
      (.step _ fcInOrder2 (.step _ fcInOrder1 (.base "/f") (by decide)) (by decide))
      (NewChunk fcInOrder1 0) (NewChunk fcInOrder2 1)
      (by decide) (by decide) (by decide)⟩

end Lettuce
